import Mathlib

/-
Verification of the line tokenizer in `client.c` (`parseLine`, lines 270-530)
of the UDP key:value transmission lab.

The embedding models one call of `parseLine` on a NUL-terminated C string.
The Lean input is a `List Char`; the end of the list plays the role of the
terminating NUL byte (the string produced by `getline` never contains an
interior NUL).  The C function communicates failures only through `printf`
diagnostics and a NULL return; the embedding keeps the diagnostic apart from
the empty-line NULL by returning an explicit `ParseResult` whose `failure`
constructor records which `printf` branch fired.
-/

set_option autoImplicit false

namespace Lab2

/-- `MAX_TOKEN` from client.c line 31: maximum bytes for a key or value token. -/
def MAX_TOKEN : Nat := 1024

/-- C `isspace` on an `unsigned char` in the default locale: space, tab,
newline, vertical tab, form feed, carriage return. -/
def isSpaceC (c : Char) : Bool :=
  c = ' ' || c = '\t' || c = '\n' || c = '\x0b' || c = '\x0c' || c = '\r'

/-- A cJSON object member value, restricted to the node types the two
programs touch (`cJSON_IsString` / `cJSON_IsBool` / `cJSON_IsNumber`).
A number node is represented by the literal text of the number; the client
under verification never constructs `num` or `boolean` nodes, so only the
constructor tag matters for it. -/
inductive JValue where
  | str (s : List Char)
  | num (s : List Char)
  | boolean (b : Bool)
  deriving DecidableEq, Repr

/-- One `printf` diagnostic branch of `parseLine`; each constructor is one
`Warning: ..., skipping line` message in client.c. -/
inductive ErrKind where
  | whitespaceInKey
  | quoteInKey
  | backslashInKey
  | missingColon
  | emptyKey
  | keyTooLong
  | whitespaceAfterColon
  | trailingBackslash
  | unknownEscape
  | valueTooLong
  | unclosedQuote
  | backslashInUnquoted
  | emptyUnquoted
  deriving DecidableEq, Repr

deriving instance DecidableEq for Except

/-- Result of one `parseLine` call.  The C function returns a `cJSON *` or
NULL; `empty` is the NULL of a blank line (or zero pairs), `failure` is the
NULL that is preceded by a warning `printf`. -/
inductive ParseResult where
  | empty
  | failure (k : ErrKind)
  | record (pairs : List (List Char × JValue))
  deriving DecidableEq, Repr

/-- Characters that stop the key scan (client.c lines 311-314): the scan
continues while the character is none of NUL, newline, colon, whitespace,
quote, backslash.  NUL is the end of the list in this embedding. -/
def keyStop (c : Char) : Bool :=
  c = '\n' || c = ':' || isSpaceC c || c = '"' || c = '\\'

/-- Characters that stop the unquoted value scan (client.c lines 485-488). -/
def valStop (c : Char) : Bool :=
  c = '\n' || isSpaceC c || c = '\\'

/-- Key scan loop (client.c lines 310-314): consume characters until a stop
character or the end of input; returns the consumed key and the rest. -/
def scanKey : List Char → List Char × List Char
  | [] => ([], [])
  | c :: rest =>
    if keyStop c then ([], c :: rest)
    else
      match scanKey rest with
      | (k, r) => (c :: k, r)

/-- Unquoted value scan loop (client.c lines 485-488). -/
def scanUnquoted : List Char → List Char × List Char
  | [] => ([], [])
  | c :: rest =>
    if valStop c then ([], c :: rest)
    else
      match scanUnquoted rest with
      | (k, r) => (c :: k, r)

/-- The escape table of the `switch` at client.c lines 400-420. -/
def escapeChar : Char → Option Char
  | '"' => some '"'
  | '\\' => some '\\'
  | 'n' => some '\n'
  | 't' => some '\t'
  | 'r' => some '\r'
  | _ => none

/-- Whether `*pos` is whitespace; at the end of input `*pos` is NUL and C
`isspace` answers false. -/
def headSpace : List Char → Bool
  | [] => false
  | c :: _ => isSpaceC c

/-- Whether `*pos` is a double quote (false at end of input). -/
def headQuote : List Char → Bool
  | [] => false
  | c :: _ => c = '"'

/-- Whether `*pos` is a backslash (false at end of input). -/
def headBackslash : List Char → Bool
  | [] => false
  | c :: _ => c = '\\'

/-- Whether `*pos` is a newline (false at end of input). -/
def headNL : List Char → Bool
  | [] => false
  | c :: _ => c = '\n'

/-- Quoted content loop (client.c lines 385-452): walks the characters after
the opening quote.  `n` is the running `valueLen` (number of bytes already
stored in the value buffer, starting at 1 for the stored opening quote).
On success it returns the stored content characters together with the
unconsumed rest (whose head is the terminator that ended the loop). -/
def quotedLoop : List Char → Nat → Except ErrKind (List Char × List Char)
  | [], _ => .ok ([], [])
  | c :: rest, n =>
    if c = '\n' then .ok ([], c :: rest)
    else if c = '\\' then
      match rest with
      | [] => .error .trailingBackslash
      | d :: rest2 =>
        if d = '\n' then .error .trailingBackslash
        else
          match escapeChar d with
          | none => .error .unknownEscape
          | some e =>
            if MAX_TOKEN - 1 ≤ n then .error .valueTooLong
            else
              match quotedLoop rest2 (n + 1) with
              | .error k => .error k
              | .ok (acc, r) => .ok (e :: acc, r)
    else if c = '"' then .ok ([], c :: rest)
    else if MAX_TOKEN - 1 ≤ n then .error .valueTooLong
    else
      match quotedLoop rest (n + 1) with
      | .error k => .error k
      | .ok (acc, r) => .ok (c :: acc, r)

/-- Quoted value extraction (client.c lines 376-474), entered after the
opening quote has been consumed and stored (`valueLen` is 1).  After the
content loop the code demands a closing quote (line 455), re-checks the
size limit for storing it (line 462, where `valueLen` equals one plus the
number of stored content bytes), and stores the closing quote literally. -/
def scanQuoted (s : List Char) : Except ErrKind (List Char × List Char) :=
  match quotedLoop s 1 with
  | .error k => .error k
  | .ok (content, r) =>
    if headQuote r then
      if MAX_TOKEN - 1 ≤ 1 + content.length then .error .valueTooLong
      else .ok ('"' :: content ++ ['"'], r.tail)
    else .error .unclosedQuote

/-- Value extraction for one pair (client.c lines 359-516): the
whitespace-after-colon check, then quoted or unquoted mode chosen by
whether the next character is a double quote. -/
def parseValue (key : List Char) (r2 : List Char) :
    Except ErrKind ((List Char × JValue) × List Char) :=
  if headSpace r2 then .error .whitespaceAfterColon
  else if headQuote r2 then
    match scanQuoted r2.tail with
    | .error k => .error k
    | .ok (v, r4) => .ok ((key, JValue.str v), r4)
  else
    match scanUnquoted r2 with
    | (v, r3) =>
      if headBackslash r3 then .error .backslashInUnquoted
      else if v.length = 0 then .error .emptyUnquoted
      else if MAX_TOKEN ≤ v.length then .error .valueTooLong
      else .ok ((key, JValue.str v), r3)

/-- One iteration of the pair loop body after the inner whitespace skip
(client.c lines 305-519): key scan, stop-character classification
(lines 317-333), empty-key and key-length checks (lines 339-350), colon
consumption, then value extraction. -/
def parsePair (s : List Char) :
    Except ErrKind ((List Char × JValue) × List Char) :=
  match scanKey s with
  | (key, r1) =>
    match r1 with
    | [] => .error .missingColon
    | c :: r2 =>
      if c = ':' then
        if key.length = 0 then .error .emptyKey
        else if MAX_TOKEN ≤ key.length then .error .keyTooLong
        else parseValue key r2
      else if isSpaceC c then .error .whitespaceInKey
      else if c = '"' then .error .quoteInKey
      else if c = '\\' then .error .backslashInKey
      else .error .missingColon

/-- Leading whitespace skip (client.c lines 277-279): consumes every
whitespace character, the newline included. -/
def skipWs : List Char → List Char
  | [] => []
  | c :: rest => if isSpaceC c then skipWs rest else c :: rest

/-- Between-pairs whitespace skip (client.c lines 296-298): stops at the
newline. -/
def skipWsInner : List Char → List Char
  | [] => []
  | c :: rest =>
    if c = '\n' then c :: rest
    else if isSpaceC c then skipWsInner rest
    else c :: rest

/-- The main parsing loop (client.c lines 293-521), with an explicit fuel
argument to make the recursion structural.  Each iteration strictly consumes
input (`parsePair_rest_lt` below), so a fuel of one more than the length of
the input never runs out; `pairsLoop_fuel_irrelevant` certifies this.
Successful pairs are appended at the tail, matching `cJSON_AddItemToObject`
which appends to the end of the object's child list. -/
def pairsLoop : Nat → List Char → List (List Char × JValue) →
    Except ErrKind (List (List Char × JValue))
  | 0, _, acc => .ok acc
  | fuel + 1, s, acc =>
    if s.isEmpty || headNL s then .ok acc
    else if (skipWsInner s).isEmpty || headNL (skipWsInner s) then .ok acc
    else
      match parsePair (skipWsInner s) with
      | .error k => .error k
      | .ok (p, r) => pairsLoop fuel r (acc ++ [p])

/-- `parseLine` (client.c lines 270-530): skip leading whitespace, return
NULL (`empty`) on a blank line, run the pair loop, and collapse a zero-pair
object to NULL (`empty`, lines 524-527). -/
def parseLine (line : List Char) : ParseResult :=
  if (skipWs line).isEmpty || headNL (skipWs line) then .empty
  else
    match pairsLoop (line.length + 1) (skipWs line) [] with
    | .error k => .failure k
    | .ok ps => if ps.isEmpty then .empty else .record ps

/-! ### Spec-side description of quoted-value bodies

`wfBody` and `resolve` describe, following the specification's words, which
raw texts between the quotes scan successfully and what the escape
resolution produces: each escape sequence is replaced by its single resolved
character, every other character is kept.  They are used to compare the
code's `scanQuoted` against the spec's description of the stored value. -/

/-- A raw quoted body (the characters strictly between the delimiting
quotes) is well formed when it contains no bare quote, no line terminator,
and every backslash starts a recognized two-character escape. -/
def wfBody : List Char → Bool
  | [] => true
  | c :: rest =>
    if c = '\\' then
      match rest with
      | [] => false
      | d :: rest2 => (escapeChar d).isSome && wfBody rest2
    else if c = '\n' then false
    else if c = '"' then false
    else wfBody rest

/-- Escape resolution as the spec words it: each escape sequence replaced by
its single resolved character, other characters kept. -/
def resolve : List Char → List Char
  | [] => []
  | c :: rest =>
    if c = '\\' then
      match rest with
      | [] => []
      | d :: rest2 =>
        match escapeChar d with
        | some e => e :: resolve rest2
        | none => resolve rest2
    else c :: resolve rest

/-! ### Basic lemmas about the scanners -/

/-- Whether the key scan would stop at the head of this rest (it always
stops at the end of input). -/
def headKeyStop : List Char → Bool
  | [] => true
  | c :: _ => keyStop c

/-- Whether the unquoted value scan would stop at the head of this rest. -/
def headValStop : List Char → Bool
  | [] => true
  | c :: _ => valStop c

theorem headNL_of_not_space {s : List Char} (h : headSpace s = false) :
    headNL s = false := by
  cases s with
  | nil => rfl
  | cons c rest =>
    simp only [headSpace] at h
    simp only [headNL]
    by_cases hc : c = '\n'
    · subst hc; simp [isSpaceC] at h
    · simp [hc]

theorem skipWs_id {s : List Char} (h : headSpace s = false) : skipWs s = s := by
  cases s with
  | nil => rfl
  | cons c rest => simp [skipWs, headSpace] at h ⊢; simp [h]

theorem skipWsInner_id {s : List Char} (h : headSpace s = false) :
    skipWsInner s = s := by
  cases s with
  | nil => rfl
  | cons c rest =>
    simp only [headSpace] at h
    by_cases hnl : c = '\n'
    · simp [skipWsInner, hnl]
    · simp [skipWsInner, hnl, h]

theorem scanKey_app {key rest : List Char}
    (h1 : key.all (fun c => !keyStop c) = true) (h2 : headKeyStop rest = true) :
    scanKey (key ++ rest) = (key, rest) := by
  induction key with
  | nil =>
    cases rest with
    | nil => rfl
    | cons c t => simp only [headKeyStop] at h2; simp [scanKey, h2]
  | cons a key' ih =>
    simp only [List.all_cons, Bool.and_eq_true, Bool.not_eq_true'] at h1
    simp [scanKey, h1.1, ih h1.2]

theorem scanUnquoted_app {v rest : List Char}
    (h1 : v.all (fun c => !valStop c) = true) (h2 : headValStop rest = true) :
    scanUnquoted (v ++ rest) = (v, rest) := by
  induction v with
  | nil =>
    cases rest with
    | nil => rfl
    | cons c t => simp only [headValStop] at h2; simp [scanUnquoted, h2]
  | cons a v' ih =>
    simp only [List.all_cons, Bool.and_eq_true, Bool.not_eq_true'] at h1
    simp [scanUnquoted, h1.1, ih h1.2]

theorem scanKey_split {s k r : List Char} (h : scanKey s = (k, r)) :
    s = k ++ r := by
  induction s generalizing k r with
  | nil => simp only [scanKey, Prod.mk.injEq] at h; simp [← h.1, ← h.2]
  | cons c rest ih =>
    simp only [scanKey] at h
    by_cases hc : keyStop c
    · simp only [hc, if_pos] at h
      cases h; rfl
    · simp only [hc, if_neg, Bool.false_eq_true, not_false_eq_true] at h
      rcases hsk : scanKey rest with ⟨k', r'⟩
      rw [hsk] at h
      cases h
      simpa using ih hsk

theorem scanUnquoted_split {s k r : List Char} (h : scanUnquoted s = (k, r)) :
    s = k ++ r := by
  induction s generalizing k r with
  | nil => simp only [scanUnquoted, Prod.mk.injEq] at h; simp [← h.1, ← h.2]
  | cons c rest ih =>
    simp only [scanUnquoted] at h
    by_cases hc : valStop c
    · simp only [hc, if_pos] at h
      cases h; rfl
    · simp only [hc, if_neg, Bool.false_eq_true, not_false_eq_true] at h
      rcases hsk : scanUnquoted rest with ⟨k', r'⟩
      rw [hsk] at h
      cases h
      simpa using ih hsk

/-! ### Lemmas about the quoted-value scan -/

theorem quotedLoop_app {body rest : List Char} {n : Nat} (hwf : wfBody body = true)
    (hlen : n + (resolve body).length ≤ 1023) :
    quotedLoop (body ++ '"' :: rest) n = .ok (resolve body, '"' :: rest) := by
  induction body using wfBody.induct generalizing n with
  | case1 =>
    simp only [List.nil_append, resolve]
    rw [quotedLoop.eq_def]
    simp
  | case2 =>
    rw [wfBody.eq_def] at hwf
    simp at hwf
  | case3 d rest2 ih =>
    have hwf' : (escapeChar d).isSome = true ∧ wfBody rest2 = true := by
      rw [wfBody.eq_def] at hwf
      simpa using hwf
    obtain ⟨e, he⟩ := Option.isSome_iff_exists.mp hwf'.1
    have hd : ¬(d = '\n') := by
      intro hd; subst hd; simp [escapeChar] at he
    have hres : resolve ('\\' :: d :: rest2) = e :: resolve rest2 := by
      rw [resolve.eq_def]
      simp [he]
    rw [hres] at hlen ⊢
    simp only [List.length_cons] at hlen
    have hnotlong : ¬(MAX_TOKEN - 1 ≤ n) := by simp only [MAX_TOKEN]; omega
    rw [List.cons_append, List.cons_append, quotedLoop.eq_def]
    simp only [he, hd, hnotlong, if_false, ite_false, reduceIte]
    rw [ih hwf'.2 (by omega)]
    simp
  | case4 rest2 h =>
    rw [wfBody.eq_def] at hwf
    simp at hwf
  | case5 rest2 h1 h2 =>
    rw [wfBody.eq_def] at hwf
    simp at hwf
  | case6 c rest' hc hnl hq ih =>
    have hwf2 : wfBody rest' = true := by
      rw [wfBody.eq_def] at hwf
      simpa [hc, hnl, hq] using hwf
    have hres : resolve (c :: rest') = c :: resolve rest' := by
      rw [resolve.eq_def]
      simp [hc]
    rw [hres] at hlen ⊢
    simp only [List.length_cons] at hlen
    have hnotlong : ¬(MAX_TOKEN - 1 ≤ n) := by simp only [MAX_TOKEN]; omega
    rw [List.cons_append, quotedLoop.eq_def]
    simp only [hc, hnl, hq, hnotlong, if_false, ite_false, reduceIte]
    rw [ih hwf2 (by omega)]

theorem quotedLoop_sound : ∀ (s : List Char) (n : Nat) (content r : List Char),
    quotedLoop s n = .ok (content, r) →
    ∃ body, s = body ++ r ∧ wfBody body = true ∧ content = resolve body := by
  intro s n
  induction s, n using quotedLoop.induct with
  | case1 x =>
    intro content r h
    rw [quotedLoop.eq_def] at h
    simp at h
    exact ⟨[], by simp [h.2], rfl, by rw [h.1]; rfl⟩
  | case2 rest n =>
    intro content r h
    rw [quotedLoop.eq_def] at h
    simp at h
    exact ⟨[], by simp [h.2], rfl, by rw [h.1]; rfl⟩
  | case3 n h1 =>
    intro content r h
    rw [quotedLoop.eq_def] at h
    simp at h
  | case4 n rest h1 =>
    intro content r h
    rw [quotedLoop.eq_def] at h
    simp at h
  | case5 n c rest hc he h1 =>
    intro content r h
    rw [quotedLoop.eq_def] at h
    simp [hc, he] at h
  | case6 n c rest hc e he hlong h1 =>
    intro content r h
    rw [quotedLoop.eq_def] at h
    simp [hc, he, hlong] at h
  | case7 n c rest hc e he hlong k herr h1 ih =>
    intro content r h
    rw [quotedLoop.eq_def] at h
    simp [hc, he, hlong, herr] at h
  | case8 n c rest hc e he hlong acc r0 hok h1 ih =>
    intro content r h
    rw [quotedLoop.eq_def] at h
    simp [hc, he, hlong, hok] at h
    obtain ⟨body2, hb1, hb2, hb3⟩ := ih acc r0 hok
    refine ⟨'\\' :: c :: body2, ?_, ?_, ?_⟩
    · rw [← h.2]
      simp [hb1]
    · rw [wfBody.eq_def]
      simp [he, hb2]
    · rw [← h.1, resolve.eq_def]
      simp [he, ← hb3]
  | case9 rest n h1 h2 =>
    intro content r h
    rw [quotedLoop.eq_def] at h
    simp at h
    exact ⟨[], by simp [h.2], rfl, by rw [h.1]; rfl⟩
  | case10 c rest n hc hb hq hlong =>
    intro content r h
    rw [quotedLoop.eq_def] at h
    simp [hc, hb, hq, hlong] at h
  | case11 c rest n hc hb hq hlong k herr ih =>
    intro content r h
    rw [quotedLoop.eq_def] at h
    simp [hc, hb, hq, hlong, herr] at h
  | case12 c rest n hc hb hq hlong acc r0 hok ih =>
    intro content r h
    rw [quotedLoop.eq_def] at h
    simp [hc, hb, hq, hlong, hok] at h
    obtain ⟨body2, hb1, hb2, hb3⟩ := ih acc r0 hok
    refine ⟨c :: body2, ?_, ?_, ?_⟩
    · rw [← h.2]
      simp [hb1]
    · rw [wfBody.eq_def]
      simp [hc, hb, hq, hb2]
    · rw [← h.1, resolve.eq_def]
      simp [hb, ← hb3]


theorem scanQuoted_app {body rest : List Char} (hwf : wfBody body = true)
    (hlen : (resolve body).length ≤ 1021) :
    scanQuoted (body ++ '"' :: rest) = .ok ('"' :: resolve body ++ ['"'], rest) := by
  unfold scanQuoted
  rw [quotedLoop_app hwf (by omega)]
  have hno : ¬(MAX_TOKEN - 1 ≤ 1 + (resolve body).length) := by
    simp only [MAX_TOKEN]; omega
  simp [hno, headQuote]

theorem scanQuoted_close_long {body rest : List Char} (hwf : wfBody body = true)
    (hlen : (resolve body).length = 1022) :
    scanQuoted (body ++ '"' :: rest) = .error .valueTooLong := by
  unfold scanQuoted
  rw [quotedLoop_app hwf (by omega)]
  have hyes : MAX_TOKEN - 1 ≤ 1 + (resolve body).length := by
    simp only [MAX_TOKEN]; omega
  simp [hyes, headQuote]

theorem scanQuoted_sound {s v rest : List Char} (h : scanQuoted s = .ok (v, rest)) :
    ∃ body, s = body ++ '"' :: rest ∧ wfBody body = true ∧
      v = '"' :: resolve body ++ ['"'] := by
  unfold scanQuoted at h
  rcases hq : quotedLoop s 1 with k | ⟨content, r⟩ <;> rw [hq] at h
  · simp at h
  · replace h :
        (if headQuote r = true then
          (if MAX_TOKEN - 1 ≤ 1 + content.length then
            Except.error ErrKind.valueTooLong
          else Except.ok ('"' :: content ++ ['"'], r.tail))
        else Except.error ErrKind.unclosedQuote) = Except.ok (v, rest) := h
    by_cases hhq : headQuote r = true
    · rw [if_pos hhq] at h
      split at h
      · simp at h
      · simp only [Except.ok.injEq, Prod.mk.injEq] at h
        obtain ⟨c, r2, rfl⟩ : ∃ c r2, r = c :: r2 := by
          cases r with
          | nil => simp [headQuote] at hhq
          | cons c r2 => exact ⟨c, r2, rfl⟩
        have hc : c = '"' := by simpa [headQuote] using hhq
        subst hc
        obtain ⟨body, hb1, hb2, hb3⟩ := quotedLoop_sound s 1 content _ hq
        refine ⟨body, ?_, hb2, ?_⟩
        · rw [hb1]
          simp only [List.tail_cons] at h
          rw [h.2]
        · rw [← h.1, hb3]
    · rw [if_neg hhq] at h
      simp at h

/-! ### Lemmas about one pair extraction -/

theorem parseValue_quoted {key body rest : List Char} (hwf : wfBody body = true)
    (hlen : (resolve body).length ≤ 1021) :
    parseValue key ('"' :: body ++ '"' :: rest) =
      .ok ((key, JValue.str ('"' :: resolve body ++ ['"'])), rest) := by
  unfold parseValue
  rw [List.cons_append]
  simp only [headSpace, headQuote, List.tail_cons]
  rw [scanQuoted_app hwf hlen]
  simp [isSpaceC]

theorem parseValue_quoted_long {key body rest : List Char} (hwf : wfBody body = true)
    (hlen : (resolve body).length = 1022) :
    parseValue key ('"' :: body ++ '"' :: rest) = .error .valueTooLong := by
  unfold parseValue
  rw [List.cons_append]
  simp only [headSpace, headQuote, List.tail_cons]
  rw [scanQuoted_close_long hwf hlen]
  simp [isSpaceC]

theorem not_space_of_valOk {c : Char} (h : (!valStop c) = true) :
    isSpaceC c = false := by
  by_contra hs
  rw [Bool.not_eq_false] at hs
  simp [valStop, hs] at h

theorem not_space_of_keyOk {c : Char} (h : (!keyStop c) = true) :
    isSpaceC c = false := by
  by_contra hs
  rw [Bool.not_eq_false] at hs
  simp [keyStop, hs] at h

theorem not_nl_of_keyOk {c : Char} (h : (!keyStop c) = true) : ¬(c = '\n') := by
  intro hc
  subst hc
  simp [keyStop, isSpaceC] at h

theorem parseValue_unquoted {key v rest : List Char}
    (hv : v.all (fun c => !valStop c) = true) (hne : v ≠ [])
    (hlen : v.length < MAX_TOKEN) (hq : headQuote v = false)
    (hstop : headValStop rest = true) (hnb : headBackslash rest = false) :
    parseValue key (v ++ rest) = .ok ((key, JValue.str v), rest) := by
  obtain ⟨c, v2, rfl⟩ : ∃ c v2, v = c :: v2 := by
    cases v with
    | nil => exact absurd rfl hne
    | cons c v2 => exact ⟨c, v2, rfl⟩
  simp only [List.all_cons, Bool.and_eq_true] at hv
  unfold parseValue
  rw [List.cons_append]
  simp only [headSpace, headQuote] at hq ⊢
  rw [not_space_of_valOk hv.1]
  simp only [Bool.false_eq_true, if_false, hq]
  rw [← List.cons_append, scanUnquoted_app (by simp [hv.1, hv.2]) hstop]
  simp only [hnb, List.length_cons, Bool.false_eq_true, if_false]
  have h0 : ¬((c :: v2).length = 0) := by simp
  have h1 : ¬(MAX_TOKEN ≤ (c :: v2).length) := by omega
  simp only [List.length_cons] at h0 h1
  simp [h0, h1]

theorem parseValue_unquoted_long {key v rest : List Char}
    (hv : v.all (fun c => !valStop c) = true)
    (hlen : MAX_TOKEN ≤ v.length) (hq : headQuote v = false)
    (hstop : headValStop rest = true) (hnb : headBackslash rest = false) :
    parseValue key (v ++ rest) = .error .valueTooLong := by
  obtain ⟨c, v2, rfl⟩ : ∃ c v2, v = c :: v2 := by
    cases v with
    | nil => simp [MAX_TOKEN] at hlen
    | cons c v2 => exact ⟨c, v2, rfl⟩
  simp only [List.all_cons, Bool.and_eq_true] at hv
  unfold parseValue
  rw [List.cons_append]
  simp only [headSpace, headQuote] at hq ⊢
  rw [not_space_of_valOk hv.1]
  simp only [Bool.false_eq_true, if_false, hq]
  rw [← List.cons_append, scanUnquoted_app (by simp [hv.1, hv.2]) hstop]
  have h0 : ¬((c :: v2).length = 0) := by simp
  simp only [List.length_cons] at hlen h0
  simp only [hnb, Bool.false_eq_true, if_false]
  simp [h0, hlen]

theorem parsePair_key {key r2 : List Char}
    (hk : key.all (fun c => !keyStop c) = true) (hne : key ≠ [])
    (hlen : key.length < MAX_TOKEN) :
    parsePair (key ++ ':' :: r2) = parseValue key r2 := by
  unfold parsePair
  rw [scanKey_app hk (by simp [headKeyStop, keyStop])]
  have h0 : ¬(key.length = 0) := by simp [List.length_eq_zero, hne]
  have h1 : ¬(MAX_TOKEN ≤ key.length) := by omega
  simp [h0, h1]

theorem parsePair_keyLong {key r2 : List Char}
    (hk : key.all (fun c => !keyStop c) = true)
    (hlen : MAX_TOKEN ≤ key.length) :
    parsePair (key ++ ':' :: r2) = .error .keyTooLong := by
  unfold parsePair
  rw [scanKey_app hk (by simp [headKeyStop, keyStop])]
  have h0 : ¬(key.length = 0) := by simp [MAX_TOKEN] at hlen; omega
  simp [h0, hlen]

theorem parsePair_nocolon {key : List Char} {c : Char} {rest : List Char}
    (hk : key.all (fun x => !keyStop x) = true) (hstop : keyStop c = true)
    (hc : ¬(c = ':')) :
    parsePair (key ++ c :: rest) =
      (if isSpaceC c then .error .whitespaceInKey
       else if c = '"' then .error .quoteInKey
       else if c = '\\' then .error .backslashInKey
       else .error .missingColon) := by
  unfold parsePair
  rw [scanKey_app hk (by simp [headKeyStop, hstop])]
  simp [hc]

theorem parsePair_endOfInput {key : List Char}
    (hk : key.all (fun c => !keyStop c) = true) :
    parsePair key = .error .missingColon := by
  have happ := @scanKey_app key [] hk (by simp [headKeyStop])
  rw [List.append_nil] at happ
  unfold parsePair
  rw [happ]

theorem parsePair_emptyKey (rest : List Char) :
    parsePair (':' :: rest) = .error .emptyKey := by
  have happ := @scanKey_app [] (':' :: rest)
    (by simp) (by simp [headKeyStop, keyStop])
  rw [List.nil_append] at happ
  unfold parsePair
  rw [happ]
  simp


/-! ### Lemmas about the pair loop and parseLine -/

theorem pairsLoop_nil (fuel : Nat) (acc : List (List Char × JValue)) :
    pairsLoop fuel [] acc = .ok acc := by
  cases fuel with
  | zero => rfl
  | succ f => simp [pairsLoop]

theorem pairsLoop_triv {s : List Char} (fuel : Nat)
    (acc : List (List Char × JValue)) (h : (s.isEmpty || headNL s) = true) :
    pairsLoop (fuel + 1) s acc = .ok acc := by
  simp [pairsLoop, h]

theorem pairsLoop_succ {s : List Char} (fuel : Nat)
    (acc : List (List Char × JValue)) (hor : (s.isEmpty || headNL s) = false) :
    pairsLoop (fuel + 1) s acc =
      (if ((skipWsInner s).isEmpty || headNL (skipWsInner s)) = true then .ok acc
       else
         match parsePair (skipWsInner s) with
         | .error k => .error k
         | .ok (p, r) => pairsLoop fuel r (acc ++ [p])) := by
  rw [pairsLoop.eq_def]
  simp [hor]

theorem pairsLoop_step_err {s : List Char} {k : ErrKind} (fuel : Nat)
    (acc : List (List Char × JValue)) (hne : s ≠ []) (hsp : headSpace s = false)
    (herr : parsePair s = .error k) :
    pairsLoop (fuel + 1) s acc = .error k := by
  have hnl := headNL_of_not_space hsp
  have hie : s.isEmpty = false := by simpa [List.isEmpty_iff] using hne
  rw [pairsLoop.eq_def]
  simp only [hie, hnl, Bool.or_self, Bool.false_eq_true, if_false]
  rw [skipWsInner_id hsp]
  simp only [hie, hnl, Bool.or_self, Bool.false_eq_true, if_false, herr]

theorem pairsLoop_step_ok {s : List Char} {p : List Char × JValue}
    {r : List Char} (fuel : Nat) (acc : List (List Char × JValue))
    (hne : s ≠ []) (hsp : headSpace s = false)
    (hok : parsePair s = .ok (p, r)) :
    pairsLoop (fuel + 1) s acc = pairsLoop fuel r (acc ++ [p]) := by
  have hnl := headNL_of_not_space hsp
  have hie : s.isEmpty = false := by simpa [List.isEmpty_iff] using hne
  rw [pairsLoop.eq_def]
  simp only [hie, hnl, Bool.or_self, Bool.false_eq_true, if_false]
  rw [skipWsInner_id hsp]
  simp only [hie, hnl, Bool.or_self, Bool.false_eq_true, if_false, hok]

theorem parseLine_of_loop_err {line : List Char} {k : ErrKind}
    (h : pairsLoop (line.length + 1) (skipWs line) [] = .error k) :
    parseLine line = .failure k := by
  by_cases h1 : ((skipWs line).isEmpty || headNL (skipWs line)) = true
  · rw [pairsLoop_triv _ _ h1] at h
    exact absurd h (by simp)
  · simp only [Bool.not_eq_true] at h1
    simp [parseLine, h1, h]

theorem parseLine_of_loop_ok {line : List Char}
    {ps : List (List Char × JValue)}
    (h : pairsLoop (line.length + 1) (skipWs line) [] = .ok ps) (hne : ps ≠ []) :
    parseLine line = .record ps := by
  by_cases h1 : ((skipWs line).isEmpty || headNL (skipWs line)) = true
  · rw [pairsLoop_triv _ _ h1] at h
    simp only [Except.ok.injEq] at h
    exact absurd h.symm hne
  · simp only [Bool.not_eq_true] at h1
    have hie : ps.isEmpty = false := by simpa [List.isEmpty_iff] using hne
    simp [parseLine, h1, h, hie]

theorem parseLine_empty_of_no_pairs {line : List Char}
    (h : pairsLoop (line.length + 1) (skipWs line) [] = .ok []) :
    parseLine line = .empty := by
  by_cases h1 : ((skipWs line).isEmpty || headNL (skipWs line)) = true
  · simp [parseLine, h1]
  · simp only [Bool.not_eq_true] at h1
    simp [parseLine, h1, h]


/-! ### The values the parser stores are always string nodes -/

theorem parseValue_str {key r2 : List Char} {p : List Char × JValue}
    {r : List Char} (h : parseValue key r2 = .ok (p, r)) :
    ∃ v, p.2 = JValue.str v := by
  unfold parseValue at h
  by_cases h1 : headSpace r2 = true
  · rw [if_pos h1] at h
    simp at h
  · rw [if_neg h1] at h
    by_cases h2 : headQuote r2 = true
    · rw [if_pos h2] at h
      rcases hsq : scanQuoted r2.tail with k | ⟨v, r4⟩ <;> rw [hsq] at h
      · simp at h
      · simp only [Except.ok.injEq, Prod.mk.injEq] at h
        exact ⟨v, by rw [← h.1]⟩
    · rw [if_neg h2] at h
      rcases hsu : scanUnquoted r2 with ⟨v, r3⟩
      rw [hsu] at h
      simp only [] at h
      split at h
      · simp at h
      · split at h
        · simp at h
        · split at h
          · simp at h
          · simp only [Except.ok.injEq, Prod.mk.injEq] at h
            exact ⟨v, by rw [← h.1]⟩

theorem parsePair_str {s : List Char} {p : List Char × JValue} {r : List Char}
    (h : parsePair s = .ok (p, r)) : ∃ v, p.2 = JValue.str v := by
  unfold parsePair at h
  rcases hsk : scanKey s with ⟨key, r1⟩
  rw [hsk] at h
  cases r1 with
  | nil => simp at h
  | cons c r2 =>
    simp only [] at h
    split at h
    · split at h
      · simp at h
      · split at h
        · simp at h
        · exact parseValue_str h
    · split at h
      · simp at h
      · split at h
        · simp at h
        · split at h
          · simp at h
          · simp at h

theorem pairsLoop_str : ∀ (fuel : Nat) (s : List Char)
    (acc ps : List (List Char × JValue)),
    pairsLoop fuel s acc = .ok ps →
    (∀ p ∈ acc, ∃ v, p.2 = JValue.str v) →
    ∀ p ∈ ps, ∃ v, p.2 = JValue.str v := by
  intro fuel
  induction fuel with
  | zero =>
    intro s acc ps h hacc
    simp only [pairsLoop, Except.ok.injEq] at h
    rw [← h]
    exact hacc
  | succ f ih =>
    intro s acc ps h hacc
    by_cases hor : (s.isEmpty || headNL s) = true
    · rw [pairsLoop_triv f acc hor] at h
      simp only [Except.ok.injEq] at h
      rw [← h]
      exact hacc
    · rw [pairsLoop_succ f acc (by simpa using hor)] at h
      split at h
      · simp only [Except.ok.injEq] at h
        rw [← h]
        exact hacc
      · split at h
        · simp at h
        · rename_i p0 r0 hpp
          refine ih _ _ _ h ?_
          intro p hp
          rcases List.mem_append.mp hp with hp | hp
          · exact hacc p hp
          · rw [List.mem_singleton.mp hp]
            exact parsePair_str hpp

/-! ### Failure of the loop does not depend on the pairs accumulated -/

theorem pairsLoop_error_acc : ∀ (fuel : Nat) (s : List Char)
    (acc acc2 : List (List Char × JValue)) (k : ErrKind),
    pairsLoop fuel s acc = .error k → pairsLoop fuel s acc2 = .error k := by
  intro fuel
  induction fuel with
  | zero =>
    intro s acc acc2 k h
    simp [pairsLoop] at h
  | succ f ih =>
    intro s acc acc2 k h
    by_cases hor : (s.isEmpty || headNL s) = true
    · rw [pairsLoop_triv f acc hor] at h
      simp at h
    · have hor2 : (s.isEmpty || headNL s) = false := by simpa using hor
      rw [pairsLoop_succ f acc hor2] at h
      rw [pairsLoop_succ f acc2 hor2]
      split at h
      · simp at h
      · rename_i hskip
        rw [if_neg hskip]
        rcases hpp : parsePair (skipWsInner s) with k1 | ⟨p0, r0⟩
        · rw [hpp] at h
          exact h
        · rw [hpp] at h
          exact ih _ _ _ _ h

/-! ### A returned record is never empty -/

theorem parseLine_record_ne_nil : ∀ (line : List Char)
    (r : List (List Char × JValue)), parseLine line = .record r → r ≠ [] := by
  intro line r h
  unfold parseLine at h
  split at h
  · simp at h
  · split at h
    · simp at h
    · split at h
      · simp at h
      · rename_i ps hloop hie
        simp only [ParseResult.record.injEq] at h
        rw [← h]
        simpa [List.isEmpty_iff] using hie

/-! ### Whitespace-only lines -/

theorem skipWs_all {line : List Char} (h : line.all isSpaceC = true) :
    skipWs line = [] := by
  induction line with
  | nil => rfl
  | cons c rest ih =>
    simp only [List.all_cons, Bool.and_eq_true] at h
    simp [skipWs, h.1, ih h.2]


/-! ### Composition helpers for whole-line runs -/

theorem parseLine_first_err {s : List Char} {k : ErrKind} (hne : s ≠ [])
    (hsp : headSpace s = false) (h : parsePair s = .error k) :
    parseLine s = .failure k := by
  apply parseLine_of_loop_err
  rw [skipWs_id hsp]
  exact pairsLoop_step_err _ _ hne hsp h

theorem parseLine_single {s : List Char} {p : List Char × JValue}
    (hne : s ≠ []) (hsp : headSpace s = false)
    (h : parsePair s = .ok (p, [])) : parseLine s = .record [p] := by
  apply parseLine_of_loop_ok _ (by simp)
  rw [skipWs_id hsp]
  rw [pairsLoop_step_ok _ _ hne hsp h, pairsLoop_nil]
  simp

theorem parseLine_two {s r1 : List Char} {p1 p2 : List Char × JValue}
    (hne : s ≠ []) (hsp : headSpace s = false)
    (h1 : parsePair s = .ok (p1, r1)) (hne1 : r1 ≠ [])
    (hsp1 : headSpace r1 = false) (h2 : parsePair r1 = .ok (p2, [])) :
    parseLine s = .record [p1, p2] := by
  obtain ⟨m, hm⟩ : ∃ m, s.length = m + 1 := by
    cases s with
    | nil => exact absurd rfl hne
    | cons a t => exact ⟨t.length, by simp⟩
  apply parseLine_of_loop_ok _ (by simp)
  rw [skipWs_id hsp]
  rw [pairsLoop_step_ok _ _ hne hsp h1]
  rw [hm, pairsLoop_step_ok _ _ hne1 hsp1 h2, pairsLoop_nil]
  simp

theorem parseLine_record_loop {line : List Char}
    {rec : List (List Char × JValue)} (h : parseLine line = .record rec) :
    pairsLoop (line.length + 1) (skipWs line) [] = .ok rec := by
  unfold parseLine at h
  split at h
  · simp at h
  · rcases hl : pairsLoop (line.length + 1) (skipWs line) [] with k | ps <;>
      rw [hl] at h
    · simp at h
    · replace h : (if ps.isEmpty = true then ParseResult.empty
          else ParseResult.record ps) = ParseResult.record rec := h
      split at h
      · simp at h
      · simp only [ParseResult.record.injEq] at h
        rw [h]

/-! ### Replicated tokens, for the size-limit boundary -/

theorem all_replicate {c : Char} {p : Char → Bool} (n : Nat) (h : p c = true) :
    (List.replicate n c).all p = true := by
  rw [List.all_eq_true]
  intro x hx
  rw [List.eq_of_mem_replicate hx]
  exact h

theorem wfBody_replicate {c : Char} (n : Nat) (h1 : ¬(c = '\\'))
    (h2 : ¬(c = '\n')) (h3 : ¬(c = '"')) :
    wfBody (List.replicate n c) = true := by
  induction n with
  | zero => rfl
  | succ m ih =>
    rw [List.replicate_succ, wfBody.eq_def]
    simp [h1, h2, h3, ih]

theorem resolve_replicate {c : Char} (n : Nat) (h1 : ¬(c = '\\')) :
    resolve (List.replicate n c) = List.replicate n c := by
  induction n with
  | zero => rfl
  | succ m ih =>
    rw [List.replicate_succ, resolve.eq_def]
    simp [h1, ih]

/-! ### The head of a valid key token -/

theorem headSpace_key_append {key t : List Char}
    (hk : key.all (fun c => !keyStop c) = true) (hne : key ≠ []) :
    headSpace (key ++ t) = false := by
  cases key with
  | nil => exact absurd rfl hne
  | cons a key2 =>
    simp only [List.all_cons, Bool.and_eq_true] at hk
    simp only [List.cons_append, headSpace]
    exact not_space_of_keyOk hk.1

theorem key_append_ne_nil {key t : List Char} (hne : key ≠ []) :
    key ++ t ≠ [] := by
  cases key with
  | nil => exact absurd rfl hne
  | cons a key2 => simp


/-! ### Claim theorems -/

/-- C1, counterexample.  The spec claims the example line classifies `30` as
a number and `true` as a boolean; `parseLine` stores every value through
`cJSON_AddStringToObject`, so the record holds the raw strings and the typed
record the claim predicts is not produced. -/
theorem c1_counterexample :
    parseLine ("name:Alice age:30 active:true".toList) =
      .record [("name".toList, JValue.str ("Alice".toList)),
        ("age".toList, JValue.str ("30".toList)),
        ("active".toList, JValue.str ("true".toList))] ∧
    parseLine ("name:Alice age:30 active:true".toList) ≠
      .record [("name".toList, JValue.str ("Alice".toList)),
        ("age".toList, JValue.num ("30".toList)),
        ("active".toList, JValue.boolean true)] := by
  decide

/-- C1, amended.  No classifier runs: every parsed pair is stored as a
string node holding the raw value text, so the example line yields the
all-string record. -/
theorem c1_amended_values_kept_raw :
    parseLine ("name:Alice age:30 active:true".toList) =
      .record [("name".toList, JValue.str ("Alice".toList)),
        ("age".toList, JValue.str ("30".toList)),
        ("active".toList, JValue.str ("true".toList))] := by
  decide

/-- C2.  Every pair produced by one pair extraction, and hence every pair of
any record `parseLine` returns, carries a string node
(`cJSON_AddStringToObject`); no boolean or number node is ever built. -/
theorem c2_pairs_stored_as_strings :
    (∀ s p r, parsePair s = .ok (p, r) → ∃ v, p.2 = JValue.str v) ∧
    (∀ line rec, parseLine line = .record rec →
      ∀ p ∈ rec, ∃ v, p.2 = JValue.str v) := by
  constructor
  · intro s p r h
    exact parsePair_str h
  · intro line rec h p hp
    exact pairsLoop_str _ _ _ _ (parseLine_record_loop h) (by simp) p hp

theorem c2_witness :
    parseLine ("k:v".toList) = .record [(['k'], JValue.str ['v'])] ∧
    (∀ p ∈ [(['k'], JValue.str ['v'])], ∃ v, p.2 = JValue.str v) :=
  ⟨by decide, c2_pairs_stored_as_strings.2 ("k:v".toList) _ (by decide)⟩

/-- C3.  Whole-line atomicity: a failing pair makes the loop fail no matter
which pairs were already accumulated (they are discarded), and a failing
loop makes `parseLine` return the failure, never a record. -/
theorem c3_atomicity :
    (∀ fuel s acc acc2 k, pairsLoop fuel s acc = .error k →
      pairsLoop fuel s acc2 = .error k) ∧
    (∀ line k, pairsLoop (line.length + 1) (skipWs line) [] = .error k →
      parseLine line = .failure k) :=
  ⟨pairsLoop_error_acc, fun _ _ h => parseLine_of_loop_err h⟩

theorem c3_witness :
    pairsLoop 3 ("b:".toList) [(['a'], JValue.str ['1'])] =
      .error .emptyUnquoted ∧
    pairsLoop 3 ("b:".toList) [] = .error .emptyUnquoted ∧
    parseLine ("a:1 b:".toList) = .failure .emptyUnquoted :=
  ⟨by decide,
    c3_atomicity.1 3 ("b:".toList) [(['a'], JValue.str ['1'])] []
      ErrKind.emptyUnquoted (by decide),
    c3_atomicity.2 ("a:1 b:".toList) ErrKind.emptyUnquoted (by decide)⟩

/-- C4.  A quoted raw value that scans successfully is stored as the literal
opening quote, the body with every escape replaced by its resolved
character, and the literal closing quote; in particular the input
consisting of k colon quote a backslash quote b quote stores the five
characters quote a quote b quote. -/
theorem c4_quoted_value_literal :
    (∀ s v rest, scanQuoted s = .ok (v, rest) →
      ∃ body, s = body ++ '"' :: rest ∧ wfBody body = true ∧
        v = '"' :: resolve body ++ ['"']) ∧
    parseLine ("k:\"a\\\"b\"".toList) =
      .record [(['k'], JValue.str ['"', 'a', '"', 'b', '"'])] := by
  constructor
  · intro s v rest h
    exact scanQuoted_sound h
  · decide

theorem c4_witness :
    scanQuoted ("a\\\"b\"".toList) = .ok ("\"a\"b\"".toList, []) ∧
    (∃ body, "a\\\"b\"".toList = body ++ '"' :: ([] : List Char) ∧
      wfBody body = true ∧
      "\"a\"b\"".toList = '"' :: resolve body ++ ['"']) :=
  ⟨by decide, c4_quoted_value_literal.1 _ _ _ (by decide)⟩

/-- C6, counterexample.  A key that runs into the line-terminating newline
stops the key scan at a whitespace character, so the code reports
whitespace-in-key, not the missing-colon kind the claim assigns to
end-of-line. -/
theorem c6_counterexample :
    parseLine ['a', '\n'] = .failure .whitespaceInKey ∧
    ErrKind.whitespaceInKey ≠ ErrKind.missingColon := by
  decide

/-- C6, amended.  The key scan stops at whitespace, colon, quote, backslash
or end of input; only the colon is a valid stop.  A whitespace stop (the
newline terminator included, since newline is whitespace) reports
whitespace-in-key, a quote reports quote-in-key, a backslash reports
backslash-in-key, and only end of input reports missing-colon.  A colon
with no preceding key character is the empty-key error, so `a:1 :bad`
fails with empty-key and discards `a:1` too. -/
theorem c6_amended_key_scan :
    (∀ (key : List Char) (c : Char) (rest : List Char),
      key.all (fun x => !keyStop x) = true → isSpaceC c = true →
      parsePair (key ++ c :: rest) = .error .whitespaceInKey) ∧
    (∀ key rest, key.all (fun x => !keyStop x) = true →
      parsePair (key ++ '"' :: rest) = .error .quoteInKey) ∧
    (∀ key rest, key.all (fun x => !keyStop x) = true →
      parsePair (key ++ '\\' :: rest) = .error .backslashInKey) ∧
    (∀ key, key.all (fun x => !keyStop x) = true →
      parsePair key = .error .missingColon) ∧
    (∀ rest, parsePair (':' :: rest) = .error .emptyKey) ∧
    parseLine ("a:1 :bad".toList) = .failure .emptyKey := by
  refine ⟨?_, ?_, ?_, ?_, parsePair_emptyKey, by decide⟩
  · intro key c rest hk hc
    have hcol : ¬(c = ':') := by
      intro he
      subst he
      simp [isSpaceC] at hc
    rw [parsePair_nocolon hk (by simp [keyStop, hc]) hcol]
    simp [hc]
  · intro key rest hk
    rw [parsePair_nocolon hk (by decide) (by decide)]
    decide
  · intro key rest hk
    rw [parsePair_nocolon hk (by decide) (by decide)]
    decide
  · intro key hk
    exact parsePair_endOfInput hk

theorem c6_amended_witness :
    parsePair (['k'] ++ ' ' :: ['x']) = .error .whitespaceInKey ∧
    parsePair ['k'] = .error .missingColon :=
  ⟨c6_amended_key_scan.1 ['k'] ' ' ['x'] (by decide) (by decide),
    c6_amended_key_scan.2.2.2.1 ['k'] (by decide)⟩

/-- C7, counterexample.  On the getline-shaped line `a:1 b:` followed by a
newline, the character after the second colon is the newline, which is
whitespace, so the whitespace-after-colon check fires first; the reported
kind is not empty-unquoted-value as the claim requires. -/
theorem c7_counterexample :
    parseLine ("a:1 b:\n".toList) = .failure .whitespaceAfterColon ∧
    ErrKind.whitespaceAfterColon ≠ ErrKind.emptyUnquoted := by
  decide

/-- C7, amended.  When the colon is followed immediately by the end of
input, the pair fails with the empty-unquoted-value error (so the exact
line `a:1 b:` without a trailing newline discards everything with that
kind); when the line terminator newline follows the colon instead, the
whitespace-after-colon error fires first, newline being whitespace. -/
theorem c7_amended_empty_value :
    (∀ key : List Char, key.all (fun x => !keyStop x) = true → key ≠ [] →
      key.length < MAX_TOKEN →
      parsePair (key ++ [':']) = .error .emptyUnquoted) ∧
    parseLine ("a:1 b:".toList) = .failure .emptyUnquoted ∧
    parseLine ("a:1 b:\n".toList) = .failure .whitespaceAfterColon := by
  refine ⟨?_, by decide, by decide⟩
  intro key hk hne hlen
  rw [show key ++ [':'] = key ++ ':' :: [] from rfl,
    parsePair_key hk hne hlen]
  rfl

theorem c7_amended_witness :
    parsePair (['b'] ++ [':']) = .error .emptyUnquoted :=
  c7_amended_empty_value.1 ['b'] (by decide) (by decide) (by decide)

/-- C9.  A line that is empty or all whitespace (the bare line terminator
included) parses to `empty`, a loop that completes with zero pairs also
yields `empty`, and a returned record never has zero pairs. -/
theorem c9_blank_lines :
    (∀ line, line.all isSpaceC = true → parseLine line = .empty) ∧
    (∀ line, pairsLoop (line.length + 1) (skipWs line) [] = .ok [] →
      parseLine line = .empty) ∧
    (∀ line rec, parseLine line = .record rec → rec ≠ []) := by
  refine ⟨?_, ?_, parseLine_record_ne_nil⟩
  · intro line h
    simp [parseLine, skipWs_all h]
  · intro line h
    exact parseLine_empty_of_no_pairs h

theorem c9_witness :
    parseLine ("  \n".toList) = .empty ∧
    parseLine ([] : List Char) = .empty ∧
    [(['a'], JValue.str ['1'])] ≠ ([] : List (List Char × JValue)) :=
  ⟨c9_blank_lines.1 _ (by decide), c9_blank_lines.2.1 [] (by decide),
    c9_blank_lines.2.2 ("a:1".toList) _ (by decide)⟩


/-- C8.  Whenever the character immediately after a pair's colon is
whitespace, the pair extraction fails with the whitespace-after-colon error
before either value mode is entered, and the whole line is discarded with
that kind. -/
theorem c8_whitespace_after_colon :
    (∀ (key : List Char) (c : Char) (rest : List Char),
      key.all (fun x => !keyStop x) = true → key ≠ [] →
      key.length < MAX_TOKEN → isSpaceC c = true →
      parsePair (key ++ ':' :: c :: rest) = .error .whitespaceAfterColon) ∧
    (∀ (key : List Char) (c : Char) (rest : List Char),
      key.all (fun x => !keyStop x) = true → key ≠ [] →
      key.length < MAX_TOKEN → isSpaceC c = true →
      parseLine (key ++ ':' :: c :: rest) = .failure .whitespaceAfterColon) := by
  have hpart : ∀ (key : List Char) (c : Char) (rest : List Char),
      key.all (fun x => !keyStop x) = true → key ≠ [] →
      key.length < MAX_TOKEN → isSpaceC c = true →
      parsePair (key ++ ':' :: c :: rest) = .error .whitespaceAfterColon := by
    intro key c rest hk hne hlen hc
    rw [parsePair_key hk hne hlen]
    unfold parseValue
    simp [headSpace, hc]
  refine ⟨hpart, ?_⟩
  intro key c rest hk hne hlen hc
  exact parseLine_first_err (key_append_ne_nil hne)
    (headSpace_key_append hk hne) (hpart key c rest hk hne hlen hc)

theorem c8_witness :
    parseLine (['k'] ++ ':' :: ' ' :: ['v']) =
      .failure .whitespaceAfterColon :=
  c8_whitespace_after_colon.2 ['k'] ' ' ['v'] (by decide) (by decide)
    (by decide) (by decide)

/-- C10.  No whitespace separator is required after a quoted value's closing
quote: a line of the shape key1 colon quoted-value key2 colon value2, with
the second pair starting immediately after the closing quote, parses to the
two-pair record. -/
theorem c10_no_separator_after_quoted :
    ∀ k1 body k2 v2 : List Char,
      k1.all (fun c => !keyStop c) = true → k1 ≠ [] → k1.length < MAX_TOKEN →
      wfBody body = true → (resolve body).length ≤ 1021 →
      k2.all (fun c => !keyStop c) = true → k2 ≠ [] → k2.length < MAX_TOKEN →
      v2.all (fun c => !valStop c) = true → v2 ≠ [] → v2.length < MAX_TOKEN →
      headQuote v2 = false →
      parseLine (k1 ++ ':' :: ('"' :: body ++ '"' :: (k2 ++ ':' :: v2))) =
        .record [(k1, JValue.str ('"' :: resolve body ++ ['"'])),
          (k2, JValue.str v2)] := by
  intro k1 body k2 v2 hk1 hk1n hk1l hwf hlen hk2 hk2n hk2l hv2 hv2n hv2l hv2q
  have h1 : parsePair (k1 ++ ':' :: ('"' :: body ++ '"' :: (k2 ++ ':' :: v2))) =
      .ok ((k1, JValue.str ('"' :: resolve body ++ ['"'])),
        k2 ++ ':' :: v2) := by
    rw [parsePair_key hk1 hk1n hk1l]
    exact parseValue_quoted hwf hlen
  have h2 : parsePair (k2 ++ ':' :: v2) = .ok ((k2, JValue.str v2), []) := by
    rw [parsePair_key hk2 hk2n hk2l]
    have h3 := @parseValue_unquoted k2 v2 [] hv2 hv2n hv2l hv2q
      (by decide) (by decide)
    rw [List.append_nil] at h3
    exact h3
  exact parseLine_two (key_append_ne_nil hk1n) (headSpace_key_append hk1 hk1n)
    h1 (key_append_ne_nil hk2n) (headSpace_key_append hk2 hk2n) h2

theorem c10_witness :
    parseLine (['a'] ++ ':' :: ('"' :: ['x'] ++ '"' :: (['b'] ++ ':' :: ['y']))) =
      .record [(['a'], JValue.str ('"' :: resolve ['x'] ++ ['"'])),
        (['b'], JValue.str ['y'])] :=
  c10_no_separator_after_quoted ['a'] ['x'] ['b'] ['y'] (by decide) (by decide)
    (by decide) (by decide) (by decide) (by decide) (by decide) (by decide)
    (by decide) (by decide) (by decide) (by decide)

theorem replicate_ne_nil_c {c : Char} {n : Nat} (h : n ≠ 0) :
    List.replicate n c ≠ [] := by
  intro hh
  have := congrArg List.length hh
  simp [h] at this

/-- C5.  The size boundary: a key or unquoted value of exactly 1024 bytes is
rejected as too long while 1023 bytes is accepted, and a quoted value whose
stored text (both literal quotes included) is 1024 bytes is rejected while
1023 bytes is accepted. -/
theorem c5_size_boundary :
    parseLine (List.replicate 1024 'a' ++ ':' :: ['1']) =
      .failure .keyTooLong ∧
    parseLine (List.replicate 1023 'a' ++ ':' :: ['1']) =
      .record [(List.replicate 1023 'a', JValue.str ['1'])] ∧
    parseLine (['k'] ++ ':' :: List.replicate 1024 'v') =
      .failure .valueTooLong ∧
    parseLine (['k'] ++ ':' :: List.replicate 1023 'v') =
      .record [(['k'], JValue.str (List.replicate 1023 'v'))] ∧
    parseLine (['k'] ++ ':' :: ('"' :: List.replicate 1022 'v' ++ ['"'])) =
      .failure .valueTooLong ∧
    parseLine (['k'] ++ ':' :: ('"' :: List.replicate 1021 'v' ++ ['"'])) =
      .record [(['k'], JValue.str ('"' :: List.replicate 1021 'v' ++ ['"']))] := by
  have hka : ∀ n : Nat, (List.replicate n 'a').all (fun x => !keyStop x) = true :=
    fun n => all_replicate n (by decide)
  have hva : ∀ n : Nat, (List.replicate n 'v').all (fun x => !valStop x) = true :=
    fun n => all_replicate n (by decide)
  have hqv : ∀ n : Nat, headQuote (List.replicate (n + 1) 'v') = false := by
    intro n
    rw [List.replicate_succ]
    simp [headQuote]
  have hkOne : (['k'] : List Char).all (fun x => !keyStop x) = true := by decide
  have hkOneN : (['k'] : List Char) ≠ [] := by decide
  have hkOneL : (['k'] : List Char).length < MAX_TOKEN := by decide
  refine ⟨?_, ?_, ?_, ?_, ?_, ?_⟩
  · apply parseLine_first_err
      (key_append_ne_nil (replicate_ne_nil_c (by decide)))
      (headSpace_key_append (hka 1024) (replicate_ne_nil_c (by decide)))
    exact parsePair_keyLong (hka 1024)
      (by rw [List.length_replicate]; decide)
  · apply parseLine_single
      (key_append_ne_nil (replicate_ne_nil_c (by decide)))
      (headSpace_key_append (hka 1023) (replicate_ne_nil_c (by decide)))
    rw [parsePair_key (hka 1023) (replicate_ne_nil_c (by decide))
      (by rw [List.length_replicate]; decide)]
    have h3 := @parseValue_unquoted (List.replicate 1023 'a')
      ['1'] [] (by decide) (by decide) (by decide)
      (by decide) (by decide) (by decide)
    rw [List.append_nil] at h3
    exact h3
  · apply parseLine_first_err (key_append_ne_nil hkOneN)
      (headSpace_key_append hkOne hkOneN)
    rw [parsePair_key hkOne hkOneN hkOneL]
    have h3 := @parseValue_unquoted_long ['k']
      (List.replicate 1024 'v') [] (hva 1024)
      (by rw [List.length_replicate]; decide)
      (by rw [show (1024 : Nat) = 1023 + 1 from rfl]; exact hqv 1023)
      (by decide) (by decide)
    rw [List.append_nil] at h3
    exact h3
  · apply parseLine_single (key_append_ne_nil hkOneN)
      (headSpace_key_append hkOne hkOneN)
    rw [parsePair_key hkOne hkOneN hkOneL]
    have h3 := @parseValue_unquoted ['k']
      (List.replicate 1023 'v') [] (hva 1023)
      (replicate_ne_nil_c (by decide))
      (by rw [List.length_replicate]; decide)
      (by rw [show (1023 : Nat) = 1022 + 1 from rfl]; exact hqv 1022)
      (by decide) (by decide)
    rw [List.append_nil] at h3
    exact h3
  · apply parseLine_first_err (key_append_ne_nil hkOneN)
      (headSpace_key_append hkOne hkOneN)
    rw [parsePair_key hkOne hkOneN hkOneL]
    exact parseValue_quoted_long
      (wfBody_replicate 1022 (by decide) (by decide) (by decide))
      (by rw [resolve_replicate 1022 (by decide), List.length_replicate])
  · apply parseLine_single (key_append_ne_nil hkOneN)
      (headSpace_key_append hkOne hkOneN)
    rw [parsePair_key hkOne hkOneN hkOneL]
    have h3 := @parseValue_quoted ['k']
      (List.replicate 1021 'v') []
      (wfBody_replicate 1021 (by decide) (by decide) (by decide))
      (by rw [resolve_replicate 1021 (by decide), List.length_replicate])
    rw [resolve_replicate 1021 (by decide)] at h3
    exact h3


end Lab2
